import Mathlib

/-!
Verification of the picard-plugins-registry maintenance library.

The Python sources under `registry_lib/` are embedded shallowly:

* `utils.derive_plugin_id`      → `derive_plugin_id`
* `plugin._parse_refs`          → `_parse_refs`
* `plugin.add_plugin`           → `add_plugin`
* `plugin.update_plugin`        → `update_plugin`
* `blacklist.add_blacklist`     → `add_blacklist`
* `registry.Registry._load`     → `Registry_load`
* `registry.Registry.save`      → `Registry_save`
* `registry.Registry.find_plugin`      → `find_plugin`
* `registry.Registry.remove_blacklist` → `remove_blacklist`
* `cli.cmd_plugin_ref_add`      → `ref_add`
* `cli.cmd_plugin_ref_edit`     → `ref_edit`
* `cli.cmd_plugin_ref_remove`   → `ref_remove`

Python dictionaries whose keys may be absent become structures with
`Option` fields; functions that raise become functions into `Except`;
in-place mutation of the registry becomes explicit state passing (each
operation returns the registry contents after the call, also on failure,
mirroring the fact that a Python exception leaves the object as it was at
the moment of the raise).  The wall clock (`now_iso8601`, whose defining
module is not part of the sources) is threaded as an explicit `now`
argument.
-/

/-! ## Identifier deriver (`registry_lib/utils.py`, `derive_plugin_id`) -/

/-- Errors of `derive_plugin_id`; both raise sites in the source raise
`ValueError` ("Cannot derive plugin ID from URL" / "Cannot derive valid
plugin ID from URL"), the spec calls them `InvalidIdentifier`. -/
inductive DeriveError where
  | noSegment : DeriveError
  | emptyId : DeriveError
deriving DecidableEq

/-- Python `str.lower()` applied characterwise (ASCII, which is what the
repository's identifiers use). -/
def lowerChars (l : List Char) : List Char := l.map Char.toLower

/-- Embedding of the regex fragment `(?:\.git)?` at the end of the captured
group `([^/]+?)`: one trailing `".git"` is stripped from the (reversed)
segment provided at least one character remains for the group. -/
def stripDotGitRev (segR : List Char) : List Char :=
  if ['t', 'i', 'g', '.'] <+: segR ∧ 4 < segR.length then segR.drop 4 else segR

/-- Embedding of `re.search(r"/([^/]+?)(?:\.git)?$", git_url.rstrip("/"))`:
strip trailing slashes, then capture everything after the last `/` (none if
no `/` remains), with one optional trailing `".git"` removed. -/
def extractRepoName (url : List Char) : Option (List Char) :=
  let r := url.reverse.dropWhile (fun c => c = '/')
  if '/' ∈ r then some ((stripDotGitRev (r.takeWhile (fun c => c ≠ '/'))).reverse)
  else none

/-- First recognized repository-name lead-in, `"picard-plugin-"`. -/
def pfx1 : List Char := "picard-plugin-".toList

/-- Second recognized repository-name lead-in, `"picard-"`. -/
def pfx2 : List Char := "picard-".toList

/-- Third recognized repository-name lead-in, `"plugin-"`. -/
def pfx3 : List Char := "plugin-".toList

/-- The loop `for prefix in ["picard-plugin-", "picard-", "plugin-"]` with a
`break` after the first case-insensitive match: only the first matching
lead-in is removed (from the original-case name, as in the source). -/
def stripKnown (r : List Char) : List Char :=
  if pfx1 <+: lowerChars r then r.drop pfx1.length
  else if pfx2 <+: lowerChars r then r.drop pfx2.length
  else if pfx3 <+: lowerChars r then r.drop pfx3.length
  else r

/-- Embedding of `re.sub(r"[^a-z0-9-]", "-", plugin_id)` on one character. -/
def normChar (c : Char) : Char :=
  if ('a' ≤ c ∧ c ≤ 'z') ∨ ('0' ≤ c ∧ c ≤ '9') ∨ c = '-' then c else '-'

/-- Embedding of `re.sub(r"-+", "-", plugin_id)`: collapse runs of hyphens. -/
def collapseHyphens : List Char → List Char
  | [] => []
  | [c] => [c]
  | c :: d :: rest =>
      if c = '-' ∧ d = '-' then collapseHyphens (d :: rest)
      else c :: collapseHyphens (d :: rest)

/-- Embedding of `plugin_id.strip("-")`. -/
def stripHyphens (l : List Char) : List Char :=
  ((l.dropWhile (fun c => c = '-')).reverse.dropWhile (fun c => c = '-')).reverse

/-- Normalization pipeline applied to the extracted repository name:
lowercase, replace characters outside `[a-z0-9-]` by `-`, collapse runs of
`-`, strip leading/trailing `-`. -/
def normalizeRepoName (repo : List Char) : List Char :=
  stripHyphens (collapseHyphens ((lowerChars (stripKnown repo)).map normChar))

/-- Embedding of `derive_plugin_id` (`registry_lib/utils.py`). -/
def derive_plugin_id (git_url : String) : Except DeriveError String :=
  match extractRepoName git_url.toList with
  | none => .error .noSegment
  | some repo =>
      let pid := normalizeRepoName repo
      if pid = [] then .error .emptyId else .ok (String.mk pid)

/-! ## Ref parser (`registry_lib/plugin.py`, `_parse_refs`) -/

/-- A ref record; Python dict keys that may be absent are `Option`. -/
structure Ref where
  name : String
  description : Option String
  min_api_version : Option String
  max_api_version : Option String
deriving DecidableEq

/-- Embedding of Python `s.split(sep, 1)` for a one-character separator:
splits at the first occurrence, `none` when the separator does not occur. -/
def splitFirst (sep : Char) : List Char → Option (List Char × List Char)
  | [] => none
  | c :: rest =>
      if c = sep then some ([], rest)
      else
        match splitFirst sep rest with
        | some (a, b) => some (c :: a, b)
        | none => none

/-- Embedding of Python `s.split(sep)` (unbounded): the `n+1` chunks
between the `n` separator occurrences; `[""]` for the empty string. -/
def pySplit (sep : Char) : List Char → List (List Char)
  | [] => [[]]
  | c :: rest =>
      match pySplit sep rest with
      | [] => [[c]]
      | h :: t => if c = sep then [] :: h :: t else (c :: h) :: t

/-- Embedding of Python `s.strip()`: drop whitespace from both ends. -/
def trimChars (l : List Char) : List Char :=
  ((l.dropWhile Char.isWhitespace).reverse.dropWhile Char.isWhitespace).reverse

/-- One comma-delimited segment of a refs string, as parsed by the body of
the loop in `_parse_refs`: strip, split on the first `:` into name and API
constraint, split the constraint on its first `-` into min/max (the name
and the version tokens are stripped again, as in the source). -/
def refOfSegment (seg : List Char) : Ref :=
  let s := trimChars seg
  match splitFirst ':' s with
  | none =>
      { name := String.mk s, description := none,
        min_api_version := none, max_api_version := none }
  | some (n, api) =>
      match splitFirst '-' api with
      | none =>
          { name := String.mk (trimChars n), description := none,
            min_api_version := some (String.mk (trimChars api)), max_api_version := none }
      | some (mn, mx) =>
          { name := String.mk (trimChars n), description := none,
            min_api_version := some (String.mk (trimChars mn)),
            max_api_version := some (String.mk (trimChars mx)) }

/-- Embedding of `_parse_refs` (`registry_lib/plugin.py`). -/
def _parse_refs (refs_str : String) : List Ref :=
  (pySplit ',' refs_str.toList).map refOfSegment

/-- The implicit default ref, `{"name": DEFAULT_REF}` with `DEFAULT_REF = "main"`. -/
def defaultMainRef : Ref :=
  { name := "main", description := none, min_api_version := none, max_api_version := none }

/-! ## Manifest and its validator -/

/-- A parsed `MANIFEST.toml`; every key may be absent.  Locale mappings are
association lists. -/
structure Manifest where
  uuid : Option String
  name : Option String
  version : Option String
  description : Option String
  api : Option (List String)
  categories : Option (List String)
  authors : Option (List String)
  maintainers : Option (List String)
  name_i18n : Option (List (String × String))
  description_i18n : Option (List (String × String))
  long_description : Option String
deriving DecidableEq

/-- Hexadecimal digit test (case-insensitive). -/
def hexDigit (c : Char) : Bool :=
  c.isDigit || ('a' ≤ c && c ≤ 'f') || ('A' ≤ c && c ≤ 'F')

/-- Modelled from the spec: the canonical RFC 4122 textual form required by
validator check 2 of §4.3 — the 8-4-4-4-12 case-insensitive hexadecimal
grouping (the implementing module `registry_lib/picard/validator.py` is not
among the sources). -/
def isCanonicalUuid (s : String) : Bool :=
  let parts := pySplit '-' s.toList
  parts.map List.length = [8, 4, 4, 4, 12] && parts.all (fun p => p.all hexDigit)

/-- Modelled from the spec: the fixed category enumeration of §4.3
("metadata, coverart, ui, tagging, fingerprinting, …, plus \"other\" as
catch-all"; the defining module `registry_lib/picard/constants.py` is not
among the sources). -/
def VALID_CATEGORIES : List String :=
  ["metadata", "coverart", "ui", "tagging", "fingerprinting", "other"]

/-- Modelled from the spec: the ranked trust levels of §3, highest to
lowest (the defining module `registry_lib/picard/constants.py` is not among
the sources); the CLI default is the last element, `"community"`. -/
def REGISTRY_TRUST_LEVELS : List String := ["official", "trusted", "community"]

/-- Check 1 of the validator: required-field presence, producing
`"Missing required field: <key>"` per missing key. -/
def requiredFieldErrors (m : Manifest) : List String :=
  (if m.uuid.isNone then ["Missing required field: uuid"] else []) ++
  (if m.name.isNone then ["Missing required field: name"] else []) ++
  (if m.version.isNone then ["Missing required field: version"] else []) ++
  (if m.description.isNone then ["Missing required field: description"] else []) ++
  (if m.api.isNone then ["Missing required field: api"] else [])

/-- Modelled from the spec: `validate_manifest_dict` of the absent module
`registry_lib/picard/validator.py`, following §4.3 — four independent
checks whose failures are all collected into one list of human-readable
strings, never raising.  The HTML-in-markdown detection of check 4 renders
through an external markdown formatter, abstracted here as the predicate
`containsHtml`. -/
def validate_manifest_dict (containsHtml : String → Bool) (m : Manifest) : List String :=
  let uuidErrors :=
    match m.uuid with
    | none => []
    | some u =>
        if isCanonicalUuid u then []
        else ["Invalid uuid: " ++ u ++ " is not a canonical RFC 4122 UUID"]
  let categoryErrors :=
    match m.categories with
    | none => []
    | some cs =>
        (cs.filter (fun c => ¬ VALID_CATEGORIES.contains c)).map
          (fun c => "Invalid category: " ++ c)
  let htmlErrors :=
    match m.long_description with
    | none => []
    | some d =>
        if containsHtml d then ["long_description contains HTML tags, which are not allowed"]
        else []
  requiredFieldErrors m ++ uuidErrors ++ categoryErrors ++ htmlErrors

/-- Embedding of `validate_manifest` (`registry_lib/manifest.py`): raises
`ValueError` with the comma-joined complete error list when the validator
returns a non-empty list. -/
def validate_manifest (containsHtml : String → Bool) (m : Manifest) : Except String Unit :=
  let errors := validate_manifest_dict containsHtml m
  if errors = [] then .ok ()
  else .error ("Manifest validation failed: " ++ String.intercalate ", " errors)

/-! ## Registry data model -/

/-- A plugin entry of the registry.  Keys that `add_plugin` always writes
are plain fields; keys that may be absent from the dict are `Option`. -/
structure PluginEntry where
  id : String
  uuid : String
  name : String
  description : String
  git_url : String
  categories : List String
  trust_level : String
  authors : List String
  added_at : String
  updated_at : String
  maintainers : Option (List String)
  name_i18n : Option (List (String × String))
  description_i18n : Option (List (String × String))
  versioning_scheme : Option String
  refs : Option (List Ref)
  redirect_from : Option (List String)
deriving DecidableEq

/-- A blacklist entry as built by `add_blacklist`: `reason` and
`blacklisted_at` are always present, the identifiers optional. -/
structure BlacklistEntry where
  url : Option String
  uuid : Option String
  url_regex : Option String
  reason : String
  blacklisted_at : String
deriving DecidableEq

/-- Python truthiness of an optional string argument (`None` and `""` are
falsy): the notion of a "supplied" argument used throughout the CLI code. -/
def truthyOpt : Option String → Bool
  | none => false
  | some s => s ≠ ""

/-- Embedding of `Registry.find_plugin`: first entry with the given id. -/
def find_plugin (plugins : List PluginEntry) (plugin_id : String) : Option PluginEntry :=
  plugins.find? (fun p => p.id = plugin_id)

/-- Embedding of `Registry.remove_blacklist`: keep the entries matching
neither the supplied url nor the supplied uuid. -/
def remove_blacklist (blacklist : List BlacklistEntry) (url uuid : Option String) :
    List BlacklistEntry :=
  blacklist.filter
    (fun e => ¬ ((truthyOpt url ∧ e.url = url) ∨ (truthyOpt uuid ∧ e.uuid = uuid)))

/-- Replace the first entry carrying `pid` (the in-place mutation of the
object returned by `find_plugin`). -/
def replaceFirst (plugins : List PluginEntry) (pid : String) (p' : PluginEntry) :
    List PluginEntry :=
  match plugins with
  | [] => []
  | q :: rest => if q.id = pid then p' :: rest else q :: replaceFirst rest pid p'

/-! ## Persistence (`registry_lib/registry.py`, `_load` and `save`) -/

/-- The serialized registry document; `plugins` and `blacklist` keys may be
absent from the file. -/
structure Document where
  api_version : String
  plugins : Option (List PluginEntry)
  blacklist : Option (List BlacklistEntry)
deriving DecidableEq

/-- The in-memory `Registry.data` dict: its `plugins` and `blacklist` keys
may be absent, since `_load` copies whatever keys the file had. -/
structure RegistryData where
  api_version : String
  plugins : Option (List PluginEntry)
  blacklist : Option (List BlacklistEntry)
deriving DecidableEq

/-- Embedding of `Registry._load`: a missing file yields the fresh
registry; otherwise the parsed document is taken as-is except that a
missing `blacklist` key is replaced by the empty list.  (A missing
`plugins` key is left missing.) -/
def Registry_load (file : Option Document) : RegistryData :=
  match file with
  | none => { api_version := "3.0", plugins := some [], blacklist := some [] }
  | some d =>
      { api_version := d.api_version, plugins := d.plugins,
        blacklist := some (d.blacklist.getD []) }

/-- Sorting used by `Registry.save`: `sorted(plugins, key=lambda p: p["id"])`. -/
def sortById (ps : List PluginEntry) : List PluginEntry :=
  ps.mergeSort (fun a b => a.id ≤ b.id)

/-- Embedding of `Registry.save`: re-sorts `data["plugins"]` in place
(raising `KeyError` if the key is absent), then writes a document in which
empty (falsy) `plugins`/`blacklist` are omitted.  Returns the mutated
in-memory data together with the written document. -/
def Registry_save (r : RegistryData) : Except String (RegistryData × Document) :=
  match r.plugins with
  | none => .error "KeyError: plugins"
  | some ps =>
      let sorted := sortById ps
      let r' : RegistryData := { r with plugins := some sorted }
      let doc : Document :=
        { api_version := r.api_version,
          plugins := if sorted = [] then none else some sorted,
          blacklist :=
            match r.blacklist with
            | none => none
            | some bs => if bs = [] then none else some bs }
      .ok (r', doc)

/-! ## Blacklist add (`registry_lib/blacklist.py`) -/

/-- Errors of `add_blacklist`; both raise sites raise `ValueError`, the
spec calls them `InvalidArgument`. -/
inductive BlacklistError where
  | noReason : BlacklistError
  | noIdentifier : BlacklistError
deriving DecidableEq

/-- Embedding of `add_blacklist` (`registry_lib/blacklist.py`), returning
the outcome together with the blacklist after the call. -/
def add_blacklist (blacklist : List BlacklistEntry)
    (url uuid url_regex reason : Option String) (now : String) :
    Except BlacklistError BlacklistEntry × List BlacklistEntry :=
  if ¬ truthyOpt reason then (.error .noReason, blacklist)
  else if ¬ (truthyOpt url ∨ truthyOpt uuid ∨ truthyOpt url_regex) then
    (.error .noIdentifier, blacklist)
  else
    let entry : BlacklistEntry :=
      { reason := reason.getD "", blacklisted_at := now,
        uuid := if truthyOpt uuid then uuid else none,
        url := if truthyOpt url then url else none,
        url_regex := if truthyOpt url_regex then url_regex else none }
    (.ok entry, blacklist ++ [entry])

/-! ## Plugin add and update (`registry_lib/plugin.py`) -/

/-- Errors of `add_plugin`; all raise sites raise `ValueError`.  The three
duplicate constructors correspond to the spec's `DuplicateEntry`. -/
inductive AddError where
  | invalidTrustLevel : AddError
  | validationFailed : String → AddError
  | deriveFailed : DeriveError → AddError
  | duplicateGitUrl : AddError
  | duplicateUuid : AddError
  | duplicateId : AddError
deriving DecidableEq

/-- The spec's `DuplicateEntry` family among `AddError`. -/
def isDuplicateEntryError : AddError → Prop
  | .duplicateGitUrl => True
  | .duplicateUuid => True
  | .duplicateId => True
  | _ => False

/-- The `refs` argument handling of `add_plugin`: `if refs:` (truthy) parse
it, otherwise default to the single `"main"` ref. -/
def resolveRefsArg (refsArg : Option String) : List Ref :=
  match refsArg with
  | some s => if s ≠ "" then _parse_refs s else [defaultMainRef]
  | none => [defaultMainRef]

/-- The single pass of `add_plugin` over the existing entries: per entry,
first the `git_url` comparison, then the `uuid` comparison; the first hit
raises. -/
def findDup (git_url muuid : String) : List PluginEntry → Option AddError
  | [] => none
  | e :: rest =>
      if e.git_url = git_url then some .duplicateGitUrl
      else if e.uuid = muuid then some .duplicateUuid
      else findDup git_url muuid rest

/-- The entry dict assembled by `add_plugin` (including the
`_sync_optional_fields` pass over `maintainers`/`name_i18n`/
`description_i18n`, which on a fresh dict copies exactly the keys present
in the manifest, and the conditional `refs` key). -/
def buildEntry (plugin_id git_url trust_level : String) (categories : Option (List String))
    (m : Manifest) (refs_list : List Ref) (now : String) : PluginEntry :=
  { id := plugin_id, uuid := m.uuid.getD "", name := m.name.getD "",
    description := m.description.getD "", git_url := git_url,
    categories :=
      match categories with
      | some cs => if cs ≠ [] then cs else m.categories.getD []
      | none => m.categories.getD [],
    trust_level := trust_level, authors := m.authors.getD [],
    added_at := now, updated_at := now,
    maintainers := m.maintainers, name_i18n := m.name_i18n,
    description_i18n := m.description_i18n,
    versioning_scheme := none,
    refs :=
      match refs_list with
      | [r] => if r.name = "main" ∧ r.min_api_version = none then none else some refs_list
      | _ => some refs_list,
    redirect_from := none }

/-- Embedding of `add_plugin` (`registry_lib/plugin.py`).  The external
manifest fetch is the parameter `fetch`, the external markdown renderer of
the validator is `containsHtml`, and the clock is `now`.  Required manifest
fields are read with `getD`, which on every path past validation coincides
with the Python subscript (validation has established presence).  Returns
the outcome and the plugin list after the call. -/
def add_plugin (containsHtml : String → Bool) (fetch : String → String → Manifest)
    (plugins : List PluginEntry) (git_url trust_level : String)
    (categories : Option (List String)) (refsArg : Option String) (now : String) :
    Except AddError PluginEntry × List PluginEntry :=
  if ¬ REGISTRY_TRUST_LEVELS.contains trust_level then (.error .invalidTrustLevel, plugins)
  else
    let refs_list := resolveRefsArg refsArg
    let m := fetch git_url ((refs_list.headD defaultMainRef).name)
    match validate_manifest containsHtml m with
    | .error e => (.error (.validationFailed e), plugins)
    | .ok _ =>
        match derive_plugin_id git_url with
        | .error e => (.error (.deriveFailed e), plugins)
        | .ok plugin_id =>
            match findDup git_url (m.uuid.getD "") plugins with
            | some e => (.error e, plugins)
            | none =>
                match find_plugin plugins plugin_id with
                | some _ => (.error .duplicateId, plugins)
                | none =>
                    let plugin := buildEntry plugin_id git_url trust_level categories m refs_list now
                    (.ok plugin, plugins ++ [plugin])

/-- Errors of `update_plugin`; the spec's `NotFound`, `ValidationFailed`
and `UuidMismatch`. -/
inductive UpdateError where
  | notFound : UpdateError
  | validationFailed : String → UpdateError
  | uuidMismatch : UpdateError
deriving DecidableEq

/-- The ref `update_plugin` fetches from when none is given:
`plugin.get("refs", [{"name": "main"}])[0]["name"]`.  (On the unreachable
state `refs == []` the Python subscript would raise `IndexError`; the
default ref name stands in for it here.) -/
def resolvedRef (p : PluginEntry) (ref : Option String) : String :=
  match ref with
  | some r => r
  | none => ((p.refs.getD [defaultMainRef]).headD defaultMainRef).name

/-- Embedding of `update_plugin` (`registry_lib/plugin.py`): find the
entry, re-fetch and validate the manifest, reject a changed uuid, then
overwrite `name`, `description`, `authors`, the optional i18n/maintainer
fields, and `updated_at`.  Returns the outcome and the plugin list after
the call. -/
def update_plugin (containsHtml : String → Bool) (fetch : String → String → Manifest)
    (plugins : List PluginEntry) (plugin_id : String) (ref : Option String) (now : String) :
    Except UpdateError PluginEntry × List PluginEntry :=
  match find_plugin plugins plugin_id with
  | none => (.error .notFound, plugins)
  | some p =>
      let m := fetch p.git_url (resolvedRef p ref)
      match validate_manifest containsHtml m with
      | .error e => (.error (.validationFailed e), plugins)
      | .ok _ =>
          if m.uuid.getD "" ≠ p.uuid then (.error .uuidMismatch, plugins)
          else
            let p' : PluginEntry :=
              { p with name := m.name.getD "", description := m.description.getD "",
                       authors := m.authors.getD [], updated_at := now,
                       maintainers := m.maintainers, name_i18n := m.name_i18n,
                       description_i18n := m.description_i18n }
            (.ok p', replaceFirst plugins plugin_id p')

/-! ## CLI ref operations (`registry_lib/cli.py`) -/

/-- Failure exits of the ref subcommands (`sys.exit(1)` after the error
message). -/
inductive RefOpError where
  | pluginNotFound : RefOpError
  | refExists : RefOpError
  | refNotFound : RefOpError
  | noRefs : RefOpError
deriving DecidableEq

/-- Embedding of `cmd_plugin_ref_add`: initialize `refs` if absent, reject
an existing name, append the new ref (optional fields only when the
argument is truthy), bump `updated_at`.  Returns the outcome and the plugin
list after the successful save (on failure the process exits without
saving, so the stored list is unchanged). -/
def ref_add (plugins : List PluginEntry) (plugin_id ref_name : String)
    (description min_api max_api : Option String) (now : String) :
    Except RefOpError Unit × List PluginEntry :=
  match find_plugin plugins plugin_id with
  | none => (.error .pluginNotFound, plugins)
  | some p =>
      let rs := p.refs.getD []
      if rs.any (fun r => r.name = ref_name) then (.error .refExists, plugins)
      else
        let ref : Ref :=
          { name := ref_name,
            description := if truthyOpt description then description else none,
            min_api_version := if truthyOpt min_api then min_api else none,
            max_api_version := if truthyOpt max_api then max_api else none }
        let p' : PluginEntry := { p with refs := some (rs ++ [ref]), updated_at := now }
        (.ok (), replaceFirst plugins plugin_id p')

/-- Replace the first ref named `rn` (the in-place mutation of the ref
found by the lookup loop of `cmd_plugin_ref_edit`). -/
def replaceRef : List Ref → String → Ref → List Ref
  | [], _, _ => []
  | r :: rest, rn, r' => if r.name = rn then r' :: rest else r :: replaceRef rest rn r'

/-- The edited ref built by `cmd_plugin_ref_edit` from the found ref `r`:
renamed when `new_name` is truthy and differs from the old name;
`description` set when truthy, deleted when the empty string was passed,
kept when the argument is absent; `min`/`max` overwritten only when truthy. -/
def editedRef (r : Ref) (ref_name : String) (new_name description min_api max_api : Option String) :
    Ref :=
  { name :=
      if truthyOpt new_name ∧ new_name ≠ some ref_name then new_name.getD r.name else r.name,
    description :=
      match description with
      | none => r.description
      | some s => if s ≠ "" then some s else none,
    min_api_version := if truthyOpt min_api then min_api else r.min_api_version,
    max_api_version := if truthyOpt max_api then max_api else r.max_api_version }

/-- Embedding of `cmd_plugin_ref_edit`: find the ref by name, reject a
rename colliding with an existing ref name, mutate the found ref, bump
`updated_at`. -/
def ref_edit (plugins : List PluginEntry) (plugin_id ref_name : String)
    (new_name description min_api max_api : Option String) (now : String) :
    Except RefOpError Unit × List PluginEntry :=
  match find_plugin plugins plugin_id with
  | none => (.error .pluginNotFound, plugins)
  | some p =>
      let rs := p.refs.getD []
      match rs.find? (fun r => r.name = ref_name) with
      | none => (.error .refNotFound, plugins)
      | some r =>
          if truthyOpt new_name ∧ new_name ≠ some ref_name ∧
              rs.any (fun r'' => some r''.name = new_name) then
            (.error .refExists, plugins)
          else
            let r' := editedRef r ref_name new_name description min_api max_api
            let p' : PluginEntry :=
              { p with refs := some (replaceRef rs ref_name r'), updated_at := now }
            (.ok (), replaceFirst plugins plugin_id p')

/-- Embedding of `cmd_plugin_ref_remove`: filter out the named ref, fail if
nothing was removed, delete the `refs` key entirely when the remaining list
is empty, bump `updated_at`. -/
def ref_remove (plugins : List PluginEntry) (plugin_id ref_name : String) (now : String) :
    Except RefOpError Unit × List PluginEntry :=
  match find_plugin plugins plugin_id with
  | none => (.error .pluginNotFound, plugins)
  | some p =>
      match p.refs with
      | none => (.error .noRefs, plugins)
      | some rs =>
          let rs' := rs.filter (fun r => r.name ≠ ref_name)
          if rs'.length = rs.length then (.error .refNotFound, plugins)
          else
            let p' : PluginEntry :=
              { p with refs := if rs' = [] then none else some rs', updated_at := now }
            (.ok (), replaceFirst plugins plugin_id p')

/-- The ref-list invariant claimed for plugin entries: when the `refs` key
is present it holds a non-empty list with pairwise-distinct names. -/
def RefsInv (p : PluginEntry) : Prop :=
  match p.refs with
  | none => True
  | some rs => rs ≠ [] ∧ (rs.map Ref.name).Nodup

/-! ## Concrete fixtures used by the verification -/

/-- String-suffix relation stated on reversed character lists. -/
def strEndsWith (suf s : String) : Prop :=
  suf.toList.reverse <+: s.toList.reverse

/-- A markdown-renderer abstraction detecting nothing (valid manifests). -/
def chkNone : String → Bool := fun _ => false

/-- A canonical UUID used by the fixtures. -/
def uuidA : String := "12345678-1234-4234-8234-123456789abc"

/-- A second, distinct canonical UUID. -/
def uuidB : String := "87654321-4321-4321-8321-cba987654321"

/-- A valid manifest carrying `uuidA`. -/
def mValidA : Manifest :=
  { uuid := some uuidA, name := some "Test Plugin", version := some "1.0.0",
    description := some "A test plugin", api := some ["3.0"], categories := none,
    authors := none, maintainers := none, name_i18n := none, description_i18n := none,
    long_description := none }

/-- A valid manifest carrying `uuidB`. -/
def mValidB : Manifest := { mValidA with uuid := some uuidB }

/-- An invalid manifest (required `name` missing) carrying `uuidB`. -/
def mBad : Manifest := { mValidA with uuid := some uuidB, name := none }

/-- A minimal registry entry. -/
def mkEntry (pid puuid gurl : String) : PluginEntry :=
  { id := pid, uuid := puuid, name := "N", description := "D", git_url := gurl,
    categories := [], trust_level := "community", authors := [],
    added_at := "2025-01-01T00:00:00Z", updated_at := "2025-01-01T00:00:00Z",
    maintainers := none, name_i18n := none, description_i18n := none,
    versioning_scheme := none, refs := none, redirect_from := none }

/-- Fixture entry with id `"a"`, uuid `uuidA`. -/
def entryA1 : PluginEntry := mkEntry "a" uuidA "https://github.com/user/a"

/-- Fixture entry with id `"b"`, uuid `uuidB`. -/
def entryB1 : PluginEntry := mkEntry "b" uuidB "https://github.com/user/b"

/-- The entry produced by a successful update of `entryA1` against
`mValidA` at time `"T2"`. -/
def entryA1upd : PluginEntry :=
  { entryA1 with name := "Test Plugin", description := "A test plugin",
                 authors := [], updated_at := "T2",
                 maintainers := none, name_i18n := none, description_i18n := none }

/-- The entry produced by `add_plugin` on an empty registry with the refs
argument `"main,main"` (fixture for the refs-invariant analysis). -/
def entryC9 : PluginEntry :=
  buildEntry "test-plugin" "https://github.com/user/test-plugin" "community" none mValidA
    [defaultMainRef, defaultMainRef] "T"

/-- A manifest missing both `version` and `description`. -/
def mMissingVD : Manifest := { mValidA with version := none, description := none }

/-- `entryA1` after a successful `ref add` of a ref named `"develop"`. -/
def entryDev : PluginEntry :=
  { entryA1 with refs := some [⟨"develop", none, none, none⟩], updated_at := "T3" }

/-- A blacklist entry identified only by a URL pattern. -/
def blE : BlacklistEntry :=
  { url := none, uuid := none, url_regex := some "^https://github\\.com/badorg/.*",
    reason := "Compromised organization", blacklisted_at := "T" }

/-! ## Helper lemmas -/

theorem truthyOpt_eq_false_iff (o : Option String) :
    truthyOpt o = false ↔ (o = none ∨ o = some "") := by
  cases o with
  | none => simp [truthyOpt]
  | some s => simp [truthyOpt]

theorem truthyOpt_eq_true_iff (o : Option String) :
    truthyOpt o = true ↔ ∃ s, o = some s ∧ s ≠ "" := by
  cases o with
  | none => simp [truthyOpt]
  | some s => simp [truthyOpt]

theorem splitFirst_some_spec (c : Char) :
    ∀ (l a b : List Char), splitFirst c l = some (a, b) → l = a ++ c :: b ∧ c ∉ a := by
  intro l
  induction l with
  | nil => intro a b h; simp [splitFirst] at h
  | cons x xs ih =>
      intro a b h
      by_cases hx : x = c
      · subst hx
        simp [splitFirst] at h
        obtain ⟨ha, hb⟩ := h
        subst ha; subst hb
        simp
      · simp [splitFirst, hx] at h
        cases hr : splitFirst c xs with
        | none => rw [hr] at h; simp at h
        | some p =>
            rw [hr] at h
            obtain ⟨a', b'⟩ := p
            simp at h
            obtain ⟨ha, hb⟩ := h
            obtain ⟨h1, h2⟩ := ih a' b' hr
            subst ha; subst hb
            constructor
            · simp [h1]
            · intro hmem
              rcases List.mem_cons.mp hmem with hcx | hca
              · exact hx hcx.symm
              · exact h2 hca

theorem splitFirst_none_spec (c : Char) :
    ∀ l : List Char, splitFirst c l = none → c ∉ l := by
  intro l
  induction l with
  | nil => intro _; simp
  | cons x xs ih =>
      intro h
      by_cases hx : x = c
      · subst hx; simp [splitFirst] at h
      · simp [splitFirst, hx] at h
        cases hr : splitFirst c xs with
        | none => simp [Ne.symm hx, ih hr]
        | some p => rw [hr] at h; obtain ⟨a, b⟩ := p; simp at h

theorem pySplit_ne_nil (c : Char) (l : List Char) : pySplit c l ≠ [] := by
  cases l with
  | nil => simp [pySplit]
  | cons x xs =>
      simp only [pySplit]
      cases pySplit c xs with
      | nil => simp
      | cons h t =>
          by_cases hx : x = c
          · simp [hx]
          · simp [hx]

theorem mem_replaceFirst (plugins : List PluginEntry) (pid : String) (p' q : PluginEntry)
    (hq : q ∈ replaceFirst plugins pid p') : q = p' ∨ q ∈ plugins := by
  induction plugins with
  | nil => simp [replaceFirst] at hq
  | cons x xs ih =>
      by_cases hx : x.id = pid
      · simp [replaceFirst, hx] at hq
        rcases hq with h | h
        · left; exact h
        · right; simp [h]
      · simp [replaceFirst, hx] at hq
        rcases hq with h | h
        · right; simp [h]
        · rcases ih h with h' | h'
          · left; exact h'
          · right; simp [h']

/-! ## The claims -/

/-- C1: the manifest validator returns the complete list of error strings
without throwing (it is a total function into `List String`): a missing
`version` and a missing `description` each contribute their
`"Missing required field: <key>"` message (so a manifest missing both gets
both), the empty returned list characterizes the manifests accepted by the
raising wrapper `validate_manifest`, and on rejection the wrapper's error
carries the comma-join of the full error list, not only the first error. -/
theorem C1_validator_collects_all_errors (containsHtml : String → Bool) (m : Manifest) :
    (m.version = none → "Missing required field: version" ∈ validate_manifest_dict containsHtml m)
    ∧ (m.description = none →
        "Missing required field: description" ∈ validate_manifest_dict containsHtml m)
    ∧ (validate_manifest containsHtml m = .ok () ↔ validate_manifest_dict containsHtml m = [])
    ∧ (validate_manifest_dict containsHtml m ≠ [] →
        validate_manifest containsHtml m =
          .error ("Manifest validation failed: " ++
            String.intercalate ", " (validate_manifest_dict containsHtml m))) := by
  refine ⟨?_, ?_, ?_, ?_⟩
  · intro h
    simp [validate_manifest_dict, requiredFieldErrors, h]
  · intro h
    simp [validate_manifest_dict, requiredFieldErrors, h]
  · by_cases h : validate_manifest_dict containsHtml m = []
    · simp [validate_manifest, h]
    · simp [validate_manifest, h]
  · intro h
    simp [validate_manifest, h]

/-- Witness for C1 at a concrete manifest missing both `version` and
`description`. -/
theorem C1_witness :
    "Missing required field: version" ∈ validate_manifest_dict chkNone mMissingVD
    ∧ "Missing required field: description" ∈ validate_manifest_dict chkNone mMissingVD :=
  ⟨(C1_validator_collects_all_errors chkNone mMissingVD).1 rfl,
   (C1_validator_collects_all_errors chkNone mMissingVD).2.1 rfl⟩

/-- C3: the ref parser maps `"main:4.0,picard-v3:3.0-3.99"` to exactly the
two expected records in input order; in general the output is the ordered
image of the comma-separated chunks, and per stripped chunk: no colon gives
just a name, a colon introduces a constraint split at its first hyphen into
`min_api_version`/`max_api_version`, no hyphen sets only
`min_api_version`.  The final two conjuncts pin down that `splitFirst`
really splits at the first occurrence of the separator. -/
theorem C3_refs_parse :
    _parse_refs "main:4.0,picard-v3:3.0-3.99" =
      [⟨"main", none, some "4.0", none⟩, ⟨"picard-v3", none, some "3.0", some "3.99"⟩]
    ∧ (∀ s : String, _parse_refs s = (pySplit ',' s.toList).map refOfSegment)
    ∧ (∀ seg : List Char, splitFirst ':' (trimChars seg) = none →
        refOfSegment seg = ⟨String.mk (trimChars seg), none, none, none⟩)
    ∧ (∀ seg n api, splitFirst ':' (trimChars seg) = some (n, api) →
        splitFirst '-' api = none →
        refOfSegment seg = ⟨String.mk (trimChars n), none, some (String.mk (trimChars api)), none⟩)
    ∧ (∀ seg n api mn mx, splitFirst ':' (trimChars seg) = some (n, api) →
        splitFirst '-' api = some (mn, mx) →
        refOfSegment seg =
          ⟨String.mk (trimChars n), none, some (String.mk (trimChars mn)),
            some (String.mk (trimChars mx))⟩)
    ∧ (∀ (c : Char) (l a b : List Char), splitFirst c l = some (a, b) → l = a ++ c :: b ∧ c ∉ a)
    ∧ (∀ (c : Char) (l : List Char), splitFirst c l = none → c ∉ l) := by
  refine ⟨rfl, fun s => rfl, ?_, ?_, ?_, splitFirst_some_spec, splitFirst_none_spec⟩
  · intro seg h
    simp [refOfSegment, h]
  · intro seg n api h1 h2
    simp [refOfSegment, h1, h2]
  · intro seg n api mn mx h1 h2
    simp [refOfSegment, h1, h2]

/-- Witness for C3 at concrete chunks of each of the three shapes. -/
theorem C3_witness :
    refOfSegment "beta".toList = ⟨"beta", none, none, none⟩
    ∧ refOfSegment "main:4.0".toList = ⟨"main", none, some "4.0", none⟩
    ∧ refOfSegment "main:4.0-4.99".toList = ⟨"main", none, some "4.0", some "4.99"⟩ :=
  ⟨C3_refs_parse.2.2.1 "beta".toList rfl,
   C3_refs_parse.2.2.2.1 "main:4.0".toList "main".toList "4.0".toList rfl rfl,
   C3_refs_parse.2.2.2.2.1 "main:4.0-4.99".toList "main".toList "4.0-4.99".toList
     "4.0".toList "4.99".toList rfl rfl⟩

/-- C10: `Registry.remove_blacklist` retains exactly the entries for which
it is not the case that (a url was supplied — a non-empty value, matching
Python truthiness — and equals the entry's url) or (a uuid was supplied and
equals the entry's uuid); with neither supplied the blacklist is unchanged,
and an entry identified only by `url_regex` is never removed. -/
theorem C10_remove_blacklist_exact (bl : List BlacklistEntry) (url uuid : Option String) :
    (∀ e, e ∈ remove_blacklist bl url uuid ↔
      (e ∈ bl ∧ ¬ ((∃ s, url = some s ∧ s ≠ "" ∧ e.url = some s)
                 ∨ (∃ s, uuid = some s ∧ s ≠ "" ∧ e.uuid = some s))))
    ∧ remove_blacklist bl none none = bl
    ∧ (∀ e ∈ bl, e.url = none → e.uuid = none → e ∈ remove_blacklist bl url uuid) := by
  refine ⟨?_, ?_, ?_⟩
  · intro e
    cases url with
    | none =>
        cases uuid with
        | none => simp [remove_blacklist, List.mem_filter, truthyOpt]
        | some t =>
            simp [remove_blacklist, List.mem_filter, truthyOpt]
            tauto
    | some s =>
        cases uuid with
        | none =>
            simp [remove_blacklist, List.mem_filter, truthyOpt]
            tauto
        | some t =>
            simp [remove_blacklist, List.mem_filter, truthyOpt, and_assoc]
            tauto
  · simp [remove_blacklist, truthyOpt]
  · intro e he hu huu
    cases url with
    | none =>
        cases uuid with
        | none => simp [remove_blacklist, List.mem_filter, truthyOpt, he]
        | some t => simp [remove_blacklist, List.mem_filter, truthyOpt, he, hu, huu]
    | some s =>
        cases uuid with
        | none => simp [remove_blacklist, List.mem_filter, truthyOpt, he, hu, huu]
        | some t => simp [remove_blacklist, List.mem_filter, truthyOpt, he, hu, huu]

/-- Witness for C10: a pattern-only blacklist entry survives a removal by
url and uuid, and a removal with neither identifier is the identity. -/
theorem C10_witness :
    blE ∈ remove_blacklist [blE] (some "https://github.com/badorg/x") (some uuidA)
    ∧ remove_blacklist [blE] none none = [blE] :=
  ⟨(C10_remove_blacklist_exact [blE] (some "https://github.com/badorg/x") (some uuidA)).2.2
      blE (by simp) rfl rfl,
   (C10_remove_blacklist_exact [blE] none none).2.1⟩


theorem truthy_not_unsupplied (o : Option String) (h : truthyOpt o = true) :
    ¬ (o = none ∨ o = some "") := by
  obtain ⟨s, hs, hne⟩ := (truthyOpt_eq_true_iff o).mp h
  subst hs
  simp [hne]

theorem ifTruthy_eq_some_iff (o : Option String) (s : String) :
    (if truthyOpt o then o else none) = some s ↔ (o = some s ∧ s ≠ "") := by
  cases o with
  | none => simp [truthyOpt]
  | some v =>
      by_cases hv : v = ""
      · subst hv
        simp [truthyOpt]
        intro h
        exact h.symm
      · have ht : truthyOpt (some v) = true := by simp [truthyOpt, hv]
        simp only [ht, if_pos]
        constructor
        · intro h
          obtain rfl : v = s := by simpa using h
          exact ⟨rfl, hv⟩
        · intro h
          exact h.1

/-- C8: blacklist add fails (with one of the two `InvalidArgument`-family
errors) exactly when the reason is empty or absent, or none of url, uuid,
url_regex carries a non-empty value ("supplied" in the Python-truthiness
sense used by the CLI); on failure the blacklist is unchanged, and on
success exactly one entry is appended, carrying the reason, the creation
timestamp, and precisely the identifiers that were supplied. -/
theorem C8_blacklist_add_exact (bl : List BlacklistEntry)
    (url uuid rgx reason : Option String) (now : String) :
    ((∃ err, (add_blacklist bl url uuid rgx reason now).1 = .error err) ↔
       (reason = none ∨ reason = some ""
        ∨ ((url = none ∨ url = some "") ∧ (uuid = none ∨ uuid = some "")
            ∧ (rgx = none ∨ rgx = some ""))))
    ∧ (∀ err, (add_blacklist bl url uuid rgx reason now).1 = .error err →
        (add_blacklist bl url uuid rgx reason now).2 = bl)
    ∧ (∀ e, (add_blacklist bl url uuid rgx reason now).1 = .ok e →
        (add_blacklist bl url uuid rgx reason now).2 = bl ++ [e]
        ∧ reason = some e.reason ∧ e.blacklisted_at = now
        ∧ (∀ s, e.url = some s ↔ (url = some s ∧ s ≠ ""))
        ∧ (∀ s, e.uuid = some s ↔ (uuid = some s ∧ s ≠ ""))
        ∧ (∀ s, e.url_regex = some s ↔ (rgx = some s ∧ s ≠ ""))) := by
  by_cases hr : truthyOpt reason = true
  · obtain ⟨rs, hrs, hrne⟩ := (truthyOpt_eq_true_iff reason).mp hr
    subst hrs
    have h1 : (truthyOpt (some rs) : Prop) := by simp [truthyOpt, hrne]
    by_cases hid : truthyOpt url = true ∨ truthyOpt uuid = true ∨ truthyOpt rgx = true
    · have hcond : (truthyOpt url : Prop) ∨ (truthyOpt uuid : Prop) ∨ (truthyOpt rgx : Prop) := by
        rcases hid with h | h | h
        · exact Or.inl (by simp [h])
        · exact Or.inr (Or.inl (by simp [h]))
        · exact Or.inr (Or.inr (by simp [h]))
      have hok : add_blacklist bl url uuid rgx (some rs) now =
          (.ok ⟨if truthyOpt url then url else none, if truthyOpt uuid then uuid else none,
                if truthyOpt rgx then rgx else none, rs, now⟩,
           bl ++ [⟨if truthyOpt url then url else none, if truthyOpt uuid then uuid else none,
                if truthyOpt rgx then rgx else none, rs, now⟩]) := by
        rw [add_blacklist, if_neg (not_not_intro h1), if_neg (not_not_intro hcond)]
        rfl
      refine ⟨?_, ?_, ?_⟩
      · rw [hok]
        refine iff_of_false (by simp) ?_
        rintro (h | h | ⟨hx1, hx2, hx3⟩)
        · exact Option.noConfusion h
        · exact hrne (by simpa using h)
        · rcases hid with h' | h' | h'
          · exact truthy_not_unsupplied url h' hx1
          · exact truthy_not_unsupplied uuid h' hx2
          · exact truthy_not_unsupplied rgx h' hx3
      · intro err herr
        rw [hok] at herr
        exact absurd herr (by simp)
      · intro e he
        rw [hok] at he
        have he' := (Except.ok.injEq _ _).mp he.symm
        subst he'
        refine ⟨by rw [hok], rfl, rfl, ?_, ?_, ?_⟩
        · intro s; exact ifTruthy_eq_some_iff url s
        · intro s; exact ifTruthy_eq_some_iff uuid s
        · intro s; exact ifTruthy_eq_some_iff rgx s
    · push_neg at hid
      obtain ⟨hu, huu, hg⟩ := hid
      have hu' : truthyOpt url = false := by simpa using hu
      have huu' : truthyOpt uuid = false := by simpa using huu
      have hg' : truthyOpt rgx = false := by simpa using hg
      have hcond : ¬ ((truthyOpt url : Prop) ∨ (truthyOpt uuid : Prop) ∨ (truthyOpt rgx : Prop)) := by
        simp [hu', huu', hg']
      have herr_eq : add_blacklist bl url uuid rgx (some rs) now = (.error .noIdentifier, bl) := by
        rw [add_blacklist, if_neg (not_not_intro h1), if_pos hcond]
      refine ⟨?_, ?_, ?_⟩
      · rw [herr_eq]
        refine iff_of_true ⟨.noIdentifier, rfl⟩ ?_
        exact Or.inr (Or.inr ⟨(truthyOpt_eq_false_iff url).mp hu',
          (truthyOpt_eq_false_iff uuid).mp huu', (truthyOpt_eq_false_iff rgx).mp hg'⟩)
      · intro err _
        rw [herr_eq]
      · intro e he
        rw [herr_eq] at he
        exact absurd he (by simp)
  · have hr' : truthyOpt reason = false := by simpa using hr
    have h1 : ¬ (truthyOpt reason : Prop) := by simp [hr']
    have herr_eq : add_blacklist bl url uuid rgx reason now = (.error .noReason, bl) := by
      rw [add_blacklist, if_pos h1]
    refine ⟨?_, ?_, ?_⟩
    · rw [herr_eq]
      refine iff_of_true ⟨.noReason, rfl⟩ ?_
      rcases (truthyOpt_eq_false_iff reason).mp hr' with h | h
      · exact Or.inl h
      · exact Or.inr (Or.inl h)
    · intro err _
      rw [herr_eq]
    · intro e he
      rw [herr_eq] at he
      exact absurd he (by simp)

/-- Witness for C8 at a concrete successful call. -/
theorem C8_witness :
    (add_blacklist [] (some "https://github.com/bad/plugin") none none (some "Malicious") "T").2 =
      [] ++ [⟨some "https://github.com/bad/plugin", none, none, "Malicious", "T"⟩] :=
  ((C8_blacklist_add_exact [] (some "https://github.com/bad/plugin") none none
      (some "Malicious") "T").2.2
    ⟨some "https://github.com/bad/plugin", none, none, "Malicious", "T"⟩ rfl).1

/-- C5 (code bug): saving an empty registry omits the `plugins` key, but
`_load` restores only `blacklist` for omitted keys, so loading the written
document yields a state without a `plugins` collection — and saving that
state again raises `KeyError` (the first line of `save` subscripts
`data["plugins"]`).  The round trip therefore does not reproduce an empty
plugins list. -/
theorem C5_empty_plugins_not_restored :
    Registry_save (Registry_load none) =
      .ok (⟨"3.0", some [], some []⟩, ⟨"3.0", none, none⟩)
    ∧ (Registry_load (some ⟨"3.0", none, none⟩)).plugins = none
    ∧ (Registry_load (some ⟨"3.0", none, none⟩)).plugins ≠ some []
    ∧ Registry_save (Registry_load (some ⟨"3.0", none, none⟩)) = .error "KeyError: plugins" := by
  refine ⟨?_, rfl, by simp [Registry_load], rfl⟩
  simp [Registry_save, Registry_load, sortById, List.mergeSort_nil]

/-- C6: a successful `update_plugin` leaves `id`, `uuid`, `git_url` and
`added_at` of the found entry unchanged and sets `updated_at` to the
current clock reading, hence to a value different from the stored one
whenever the clock has moved on. -/
theorem C6_update_preserves_identity (containsHtml : String → Bool)
    (fetch : String → String → Manifest) (plugins : List PluginEntry)
    (plugin_id : String) (ref : Option String) (now : String) (p p' : PluginEntry)
    (hfind : find_plugin plugins plugin_id = some p)
    (hok : (update_plugin containsHtml fetch plugins plugin_id ref now).1 = .ok p') :
    p'.id = p.id ∧ p'.uuid = p.uuid ∧ p'.git_url = p.git_url ∧ p'.added_at = p.added_at
    ∧ p'.updated_at = now ∧ (now ≠ p.updated_at → p'.updated_at ≠ p.updated_at) := by
  simp only [update_plugin, hfind] at hok
  cases hval : validate_manifest containsHtml (fetch p.git_url (resolvedRef p ref)) with
  | error e => rw [hval] at hok; exact absurd hok (by simp)
  | ok u =>
      rw [hval] at hok
      by_cases hne : (fetch p.git_url (resolvedRef p ref)).uuid.getD "" ≠ p.uuid
      · rw [if_pos hne] at hok
        exact absurd hok (by simp)
      · rw [if_neg hne] at hok
        have hp' := (Except.ok.injEq _ _).mp hok
        subst hp'
        refine ⟨rfl, rfl, rfl, rfl, rfl, ?_⟩
        intro hnow
        simpa using hnow

/-- Witness for C6 at a concrete registry and manifest. -/
theorem C6_witness :
    entryA1upd.id = entryA1.id ∧ entryA1upd.uuid = entryA1.uuid
    ∧ entryA1upd.updated_at ≠ entryA1.updated_at :=
  have h := C6_update_preserves_identity chkNone (fun _ _ => mValidA) [entryA1] "a" none "T2"
    entryA1 entryA1upd rfl rfl
  ⟨h.1, h.2.1, h.2.2.2.2.2 (by decide)⟩

/-- C7 counterexample: a stored uuid differing from the fetched manifest's
uuid does not guarantee a `UuidMismatch` failure — validation runs first,
so an otherwise-invalid manifest fails with `ValidationFailed` instead
even though the uuids differ. -/
theorem C7_counterexample :
    mBad.uuid.getD "" ≠ entryA1.uuid
    ∧ (update_plugin chkNone (fun _ _ => mBad) [entryA1] "a" none "T").1 =
        .error (.validationFailed "Manifest validation failed: Missing required field: name")
    ∧ UpdateError.validationFailed "Manifest validation failed: Missing required field: name" ≠
        UpdateError.uuidMismatch := by
  refine ⟨by decide, rfl, by simp⟩

/-- C7 (amended): for every registered plugin and fetched manifest that
passes validation, a uuid differing from the stored one makes
`update_plugin` fail with `UuidMismatch`, leaving the registry unchanged. -/
theorem C7_uuid_mismatch_rejected (containsHtml : String → Bool)
    (fetch : String → String → Manifest) (plugins : List PluginEntry)
    (plugin_id : String) (ref : Option String) (now : String) (p : PluginEntry)
    (hfind : find_plugin plugins plugin_id = some p)
    (hval : validate_manifest containsHtml (fetch p.git_url (resolvedRef p ref)) = .ok ())
    (hne : (fetch p.git_url (resolvedRef p ref)).uuid.getD "" ≠ p.uuid) :
    update_plugin containsHtml fetch plugins plugin_id ref now = (.error .uuidMismatch, plugins) := by
  simp only [update_plugin, hfind]
  rw [hval, if_pos hne]

/-- Witness for C7 (amended): updating against a valid manifest whose uuid
changed fails with `UuidMismatch` and leaves the registry as it was. -/
theorem C7_witness :
    update_plugin chkNone (fun _ _ => mValidB) [entryA1] "a" none "T" =
      (.error .uuidMismatch, [entryA1]) :=
  C7_uuid_mismatch_rejected chkNone (fun _ _ => mValidB) [entryA1] "a" none "T" entryA1
    rfl rfl (by decide)

theorem findDup_some_kind (g u : String) :
    ∀ (l : List PluginEntry) (e : AddError), findDup g u l = some e →
      e = .duplicateGitUrl ∨ e = .duplicateUuid := by
  intro l
  induction l with
  | nil => intro e h; simp [findDup] at h
  | cons x xs ih =>
      intro e h
      by_cases hg : x.git_url = g
      · simp [findDup, hg] at h
        exact Or.inl h.symm
      · by_cases hu : x.uuid = u
        · simp [findDup, hg, hu] at h
          exact Or.inr h.symm
        · simp [findDup, hg, hu] at h
          exact ih e h

theorem findDup_none_iff (g u : String) :
    ∀ l : List PluginEntry,
      (findDup g u l = none ↔ ∀ x ∈ l, x.git_url ≠ g ∧ x.uuid ≠ u) := by
  intro l
  induction l with
  | nil => simp [findDup]
  | cons x xs ih =>
      by_cases hg : x.git_url = g
      · simp [findDup, hg]
      · by_cases hu : x.uuid = u
        · simp [findDup, hg, hu]
        · simp [findDup, hg, hu, ih]

theorem findDup_first_match (g u : String) :
    ∀ (pre : List PluginEntry) (e : PluginEntry) (post : List PluginEntry),
      (∀ x ∈ pre, x.git_url ≠ g ∧ x.uuid ≠ u) →
      ((e.git_url = g → findDup g u (pre ++ e :: post) = some .duplicateGitUrl)
       ∧ (e.git_url ≠ g → e.uuid = u → findDup g u (pre ++ e :: post) = some .duplicateUuid)) := by
  intro pre
  induction pre with
  | nil =>
      intro e post _
      constructor
      · intro hg; simp [findDup, hg]
      · intro hg hu; simp [findDup, hg, hu]
  | cons x xs ih =>
      intro e post hpre
      have hx := hpre x (by simp)
      have hrest : ∀ y ∈ xs, y.git_url ≠ g ∧ y.uuid ≠ u := fun y hy => hpre y (by simp [hy])
      have := ih e post hrest
      constructor
      · intro hg
        simp only [List.cons_append, findDup, if_neg hx.1, if_neg hx.2]
        exact this.1 hg
      · intro hg hu
        simp only [List.cons_append, findDup, if_neg hx.1, if_neg hx.2]
        exact this.2 hg hu

/-- C2 (amended): with a valid trust level, a validated manifest and a
derivable id, `add_plugin` rejects any duplicate before mutating anything,
with the registry list unchanged after the failed call; the duplicate scan
walks the existing entries in list order checking `git_url` then `uuid`
per entry (so the first matching check of that scan determines the
reported error), and the derived-id check runs only after the whole scan
found no git-url/uuid collision. -/
theorem C2_duplicate_rejection (chk : String → Bool) (fetch : String → String → Manifest)
    (plugins : List PluginEntry) (git_url trust_level : String)
    (cats : Option (List String)) (refsArg : Option String) (now : String)
    (m : Manifest) (plugin_id : String)
    (htrust : REGISTRY_TRUST_LEVELS.contains trust_level = true)
    (hm : fetch git_url ((resolveRefsArg refsArg).headD defaultMainRef).name = m)
    (hval : validate_manifest chk m = .ok ())
    (hderive : derive_plugin_id git_url = .ok plugin_id) :
    (∀ err, findDup git_url (m.uuid.getD "") plugins = some err →
       add_plugin chk fetch plugins git_url trust_level cats refsArg now = (.error err, plugins)
       ∧ isDuplicateEntryError err)
    ∧ (∀ pre e post, plugins = pre ++ e :: post →
        (∀ x ∈ pre, x.git_url ≠ git_url ∧ x.uuid ≠ m.uuid.getD "") →
        ((e.git_url = git_url →
           findDup git_url (m.uuid.getD "") plugins = some .duplicateGitUrl)
         ∧ (e.git_url ≠ git_url → e.uuid = m.uuid.getD "" →
           findDup git_url (m.uuid.getD "") plugins = some .duplicateUuid)))
    ∧ ((∀ x ∈ plugins, x.git_url ≠ git_url ∧ x.uuid ≠ m.uuid.getD "") →
        find_plugin plugins plugin_id ≠ none →
        add_plugin chk fetch plugins git_url trust_level cats refsArg now =
          (.error .duplicateId, plugins)) := by
  refine ⟨?_, ?_, ?_⟩
  · intro err herr
    constructor
    · simp only [add_plugin, htrust]
      rw [hm]
      simp [hval, hderive, herr]
    · rcases findDup_some_kind _ _ plugins err herr with h | h <;> subst h <;> trivial
  · intro pre e post hsplit hpre
    subst hsplit
    exact findDup_first_match _ _ pre e post hpre
  · intro hnone hfp
    have hdn : findDup git_url (m.uuid.getD "") plugins = none :=
      (findDup_none_iff _ _ plugins).mpr hnone
    obtain ⟨q, hq⟩ := Option.ne_none_iff_exists'.mp hfp
    simp only [add_plugin, htrust]
    rw [hm]
    simp [hval, hderive, hdn, hq]

/-- Witness for C2 (amended): adding the same git url twice fails with the
git-url duplicate error and leaves the registry unchanged. -/
theorem C2_witness :
    add_plugin chkNone (fun _ _ => mValidA) [entryA1] "https://github.com/user/a" "community"
      none none "T" = (.error .duplicateGitUrl, [entryA1])
    ∧ isDuplicateEntryError .duplicateGitUrl :=
  (C2_duplicate_rejection chkNone (fun _ _ => mValidA) [entryA1] "https://github.com/user/a"
      "community" none none "T" mValidA "a" rfl rfl rfl rfl).1 .duplicateGitUrl rfl

/-- C2 counterexample: the registry holds `entryA1` (sharing the new
manifest's uuid) before `entryB1` (sharing the new git url).  The collision
kinds are not checked git-url-first across the registry: the scan is
entry-major, so the uuid collision of the earlier entry wins and the
reported error is the uuid one, although an existing entry shares the git
url. -/
theorem C2_counterexample :
    (add_plugin chkNone (fun _ _ => mValidA) [entryA1, entryB1] "https://github.com/user/b"
        "community" none none "T").1 = .error .duplicateUuid
    ∧ entryB1.git_url = "https://github.com/user/b"
    ∧ AddError.duplicateUuid ≠ AddError.duplicateGitUrl :=
  ⟨rfl, rfl, by simp⟩

theorem dropWhile_slash_self (rl : List Char) (h : rl.head? ≠ some '/') :
    rl.dropWhile (fun c => c = '/') = rl := by
  cases rl with
  | nil => rfl
  | cons c t =>
      have hc : c ≠ '/' := fun hcc => h (by rw [hcc]; rfl)
      simp [List.dropWhile_cons, hc]

theorem strEndsWith_slash_iff (u : String) :
    strEndsWith "/" u ↔ u.toList.reverse.head? = some '/' := by
  simp only [strEndsWith]
  have e1 : "/".toList.reverse = ['/'] := rfl
  rw [e1]
  cases hrev : u.toList.reverse with
  | nil => simp
  | cons c t => simp [ List.cons_prefix_cons, eq_comm]

theorem extract_dotgit_invariant (u : String) (h1 : ¬ strEndsWith "/" u)
    (h2 : ¬ strEndsWith ".git" u) :
    extractRepoName (u ++ ".git").toList = extractRepoName u.toList := by
  have hhead : u.toList.reverse.head? ≠ some '/' := fun hc =>
    h1 ((strEndsWith_slash_iff u).mpr hc)
  have htig : ¬ (['t', 'i', 'g', '.'] <+: u.toList.reverse) := by
    intro hc
    apply h2
    simp only [strEndsWith]
    have e2 : ".git".toList.reverse = ['t', 'i', 'g', '.'] := rfl
    rw [e2]
    exact hc
  have htl : (u ++ ".git").toList = u.toList ++ ['.', 'g', 'i', 't'] := by
    rfl
  rw [htl]
  simp only [extractRepoName]
  have hrev : (u.toList ++ ['.', 'g', 'i', 't']).reverse =
      't' :: 'i' :: 'g' :: '.' :: u.toList.reverse := by
    simp
  rw [hrev]
  have hdrop1 : ('t' :: 'i' :: 'g' :: '.' :: u.toList.reverse).dropWhile (fun c => c = '/') =
      't' :: 'i' :: 'g' :: '.' :: u.toList.reverse := by
    simp [List.dropWhile_cons]
  have hdrop2 : u.toList.reverse.dropWhile (fun c => c = '/') = u.toList.reverse :=
    dropWhile_slash_self _ hhead
  rw [hdrop1, hdrop2]
  by_cases hm : '/' ∈ u.toList.reverse
  · have hm' : '/' ∈ ('t' :: 'i' :: 'g' :: '.' :: u.toList.reverse) := by simpa using hm
    rw [if_pos hm', if_pos hm]
    have htake : (('t' :: 'i' :: 'g' :: '.' :: u.toList.reverse).takeWhile (fun c => c ≠ '/')) =
        't' :: 'i' :: 'g' :: '.' :: (u.toList.reverse.takeWhile (fun c => c ≠ '/')) := by
      simp [List.takeWhile_cons]
    rw [htake]
    have hseg_ne : u.toList.reverse.takeWhile (fun c => c ≠ '/') ≠ [] := by
      cases hrl : u.toList.reverse with
      | nil => rw [hrl] at hm; simp at hm
      | cons c t =>
          have hc : c ≠ '/' := by
            intro hcc
            apply hhead
            rw [hrl, hcc]
            rfl
          simp [List.takeWhile_cons, hc]
    have hstrip1 : stripDotGitRev
        ('t' :: 'i' :: 'g' :: '.' :: (u.toList.reverse.takeWhile (fun c => c ≠ '/'))) =
        u.toList.reverse.takeWhile (fun c => c ≠ '/') := by
      have hlen : 0 < (u.toList.reverse.takeWhile (fun c => c ≠ '/')).length :=
        List.length_pos.mpr hseg_ne
      simp only [stripDotGitRev]
      rw [if_pos ⟨⟨_, rfl⟩, by simp only [List.length_cons]; omega⟩]
      rfl
    have hstrip2 : stripDotGitRev (u.toList.reverse.takeWhile (fun c => c ≠ '/')) =
        u.toList.reverse.takeWhile (fun c => c ≠ '/') := by
      simp only [stripDotGitRev]
      rw [if_neg]
      rintro ⟨hp, _⟩
      exact htig (hp.trans ⟨_, List.takeWhile_append_dropWhile _ _⟩)
    rw [hstrip1, hstrip2]
  · have hm' : ¬ '/' ∈ ('t' :: 'i' :: 'g' :: '.' :: u.toList.reverse) := by simpa using hm
    rw [if_neg hm', if_neg hm]

/-- C4 counterexample: the `.git`-stripping law fails on URLs whose final
segment already ends in `".git"` — the regex strips only one occurrence,
so appending another `".git"` changes the derived identifier. -/
theorem C4_counterexample :
    derive_plugin_id ("https://host/user/x.git" ++ ".git") = .ok "x-git"
    ∧ derive_plugin_id "https://host/user/x.git" = .ok "x"
    ∧ (Except.ok "x-git" : Except DeriveError String) ≠ .ok "x" :=
  ⟨rfl, rfl, by simp⟩

/-- C4 (amended): the deriver maps the two spec examples as claimed;
appending `".git"` to a URL that ends in neither `"/"` nor `".git"` does
not change the result; the lead-in stripping removes only the first
matching lead-in of the priority list `picard-plugin-`, `picard-`,
`plugin-` (case-insensitively, at most one — witnessed also by the
concrete double-lead-in example); and the deriver fails exactly when no
path segment can be extracted or the normalized result is empty. -/
theorem C4_deriver_amended :
    derive_plugin_id "https://host/user/picard-plugin-name" = .ok "name"
    ∧ derive_plugin_id "https://host/user/My_Plugin" = .ok "my-plugin"
    ∧ (∀ u : String, ¬ strEndsWith "/" u → ¬ strEndsWith ".git" u →
        derive_plugin_id (u ++ ".git") = derive_plugin_id u)
    ∧ (∀ r : List Char,
        (pfx1 <+: lowerChars r → stripKnown r = r.drop pfx1.length)
        ∧ (¬ pfx1 <+: lowerChars r → pfx2 <+: lowerChars r →
            stripKnown r = r.drop pfx2.length)
        ∧ (¬ pfx1 <+: lowerChars r → ¬ pfx2 <+: lowerChars r → pfx3 <+: lowerChars r →
            stripKnown r = r.drop pfx3.length)
        ∧ (¬ pfx1 <+: lowerChars r → ¬ pfx2 <+: lowerChars r → ¬ pfx3 <+: lowerChars r →
            stripKnown r = r))
    ∧ derive_plugin_id "https://host/user/picard-picard-x" = .ok "picard-x"
    ∧ (∀ u : String,
        (derive_plugin_id u = .error .noSegment ↔ extractRepoName u.toList = none)
        ∧ (derive_plugin_id u = .error .emptyId ↔
            ∃ repo, extractRepoName u.toList = some repo ∧ normalizeRepoName repo = [])) := by
  refine ⟨rfl, rfl, ?_, ?_, rfl, ?_⟩
  · intro u h1 h2
    have hext := extract_dotgit_invariant u h1 h2
    simp only [derive_plugin_id, hext]
  · intro r
    refine ⟨?_, ?_, ?_, ?_⟩
    · intro hp1
      simp only [stripKnown, if_pos hp1]
    · intro hn1 hp2
      simp only [stripKnown, if_neg hn1, if_pos hp2]
    · intro hn1 hn2 hp3
      simp only [stripKnown, if_neg hn1, if_neg hn2, if_pos hp3]
    · intro hn1 hn2 hn3
      simp only [stripKnown, if_neg hn1, if_neg hn2, if_neg hn3]
  · intro u
    cases hge : extractRepoName u.toList with
    | none =>
        have hge2 : extractRepoName u.data = none := hge
        simp [derive_plugin_id, hge, hge2]
    | some repo =>
        have hge2 : extractRepoName u.data = some repo := hge
        by_cases hn : normalizeRepoName repo = []
        · simp [derive_plugin_id, hge, hge2, hn]
        · simp [derive_plugin_id, hge, hge2, hn]

/-- Witness for C4 (amended) at a concrete URL ending in neither `"/"` nor
`".git"`. -/
theorem C4_witness :
    derive_plugin_id ("https://host/user/x" ++ ".git") = derive_plugin_id "https://host/user/x" :=
  C4_deriver_amended.2.2.1 "https://host/user/x"
    (by simp only [strEndsWith]; decide)
    (by simp only [strEndsWith]; decide)

theorem replaceRef_map_name_eq (rn : String) (r' : Ref) (h : r'.name = rn) :
    ∀ rs : List Ref, (replaceRef rs rn r').map Ref.name = rs.map Ref.name := by
  intro rs
  induction rs with
  | nil => rfl
  | cons r rest ih =>
      by_cases hr : r.name = rn
      · simp [replaceRef, hr, h]
      · simp [replaceRef, hr, ih]

theorem replaceRef_name_mem (rn : String) (r' : Ref) :
    ∀ (rs : List Ref) (x : String), x ∈ (replaceRef rs rn r').map Ref.name →
      x = r'.name ∨ x ∈ rs.map Ref.name := by
  intro rs
  induction rs with
  | nil => intro x hx; simp [replaceRef] at hx
  | cons r rest ih =>
      intro x hx
      by_cases hr : r.name = rn
      · simp [replaceRef, hr] at hx
        rcases hx with h | h
        · exact Or.inl h
        · exact Or.inr (by simp [h])
      · simp [replaceRef, hr] at hx
        rcases hx with h | h
        · exact Or.inr (by simp [h])
        · rcases ih x (by simpa using h) with h' | h'
          · exact Or.inl h'
          · exact Or.inr (by simp [h'])

theorem replaceRef_nodup (rn : String) (r' : Ref) :
    ∀ rs : List Ref, r'.name ∉ rs.map Ref.name → (rs.map Ref.name).Nodup →
      ((replaceRef rs rn r').map Ref.name).Nodup := by
  intro rs
  induction rs with
  | nil => intro _ _; simp [replaceRef]
  | cons r rest ih =>
      intro hno hnd
      rw [List.map_cons, List.nodup_cons] at hnd
      have hno1 : r'.name ≠ r.name := fun h =>
        hno (by rw [List.map_cons]; exact h ▸ List.mem_cons_self _ _)
      have hno2 : r'.name ∉ rest.map Ref.name := fun h =>
        hno (by rw [List.map_cons]; exact List.mem_cons_of_mem _ h)
      by_cases hr : r.name = rn
      · simp only [replaceRef, if_pos hr, List.map_cons, List.nodup_cons]
        exact ⟨hno2, hnd.2⟩
      · simp only [replaceRef, if_neg hr, List.map_cons, List.nodup_cons]
        refine ⟨?_, ih hno2 hnd.2⟩
        intro hmem
        rcases replaceRef_name_mem rn r' rest r.name hmem with h | h
        · exact hno1 h.symm
        · exact hnd.1 h

theorem replaceRef_length (rn : String) (r' : Ref) :
    ∀ rs : List Ref, (replaceRef rs rn r').length = rs.length := by
  intro rs
  induction rs with
  | nil => rfl
  | cons r rest ih =>
      by_cases hr : r.name = rn
      · simp [replaceRef, hr]
      · simp [replaceRef, hr, ih]

theorem resolveRefsArg_ne_nil (refsArg : Option String) : resolveRefsArg refsArg ≠ [] := by
  cases refsArg with
  | none => simp [resolveRefsArg]
  | some s =>
      by_cases hs : s = ""
      · simp [resolveRefsArg, hs]
      · simp only [resolveRefsArg, if_pos hs, _parse_refs]
        intro h
        exact pySplit_ne_nil ',' s.toList (List.map_eq_nil_iff.mp h)

theorem refOfSegment_shape (seg : List Char) :
    (refOfSegment seg).description = none
    ∧ ((refOfSegment seg).min_api_version = none → (refOfSegment seg).max_api_version = none) := by
  simp only [refOfSegment]
  cases h1 : splitFirst ':' (trimChars seg) with
  | none => simp
  | some p =>
      obtain ⟨n, api⟩ := p
      cases h2 : splitFirst '-' api with
      | none => simp [h2]
      | some q => obtain ⟨mn, mx⟩ := q; simp [h2]

theorem resolveRefsArg_shape (refsArg : Option String) :
    ∀ r ∈ resolveRefsArg refsArg,
      r.description = none ∧ (r.min_api_version = none → r.max_api_version = none) := by
  intro r hr
  cases refsArg with
  | none =>
      simp [resolveRefsArg, defaultMainRef] at hr
      subst hr
      simp [defaultMainRef]
  | some s =>
      by_cases hs : s = ""
      · simp [resolveRefsArg, hs, defaultMainRef] at hr
        subst hr
        simp [defaultMainRef]
      · simp only [resolveRefsArg, if_pos hs, _parse_refs, List.mem_map] at hr
        obtain ⟨seg, _, hseg⟩ := hr
        rw [← hseg]
        exact refOfSegment_shape seg

theorem refsInv_names (p : PluginEntry) (rs : List Ref) (hinv : RefsInv p)
    (h : p.refs = some rs) : rs ≠ [] ∧ (rs.map Ref.name).Nodup := by
  simp only [RefsInv, h] at hinv
  exact hinv

theorem refAdd_preserves_inv (plugins : List PluginEntry) (pid rn : String)
    (d mn mx : Option String) (now : String) (hinv : ∀ p ∈ plugins, RefsInv p) :
    ∀ q ∈ (ref_add plugins pid rn d mn mx now).2, RefsInv q := by
  intro q hq
  cases hfp : find_plugin plugins pid with
  | none =>
      simp only [ref_add, hfp] at hq
      exact hinv q hq
  | some p =>
      have hpmem : p ∈ plugins := List.mem_of_find?_eq_some hfp
      by_cases hex : (p.refs.getD []).any (fun r => r.name = rn) = true
      · simp only [ref_add, hfp, hex, if_pos] at hq
        exact hinv q hq
      · have hex' : (p.refs.getD []).any (fun r => r.name = rn) = false :=
          Bool.eq_false_iff.mpr hex
        simp only [ref_add, hfp, hex', Bool.false_eq_true, if_neg, not_false_eq_true] at hq
        rcases mem_replaceFirst plugins pid _ q hq with hq' | hq'
        · subst hq'
          have hfresh : ∀ r ∈ p.refs.getD [], r.name ≠ rn := by
            intro r hr
            have := List.any_eq_false.mp hex' r hr
            simpa using this
          have hnd : ((p.refs.getD []).map Ref.name).Nodup := by
            cases hrefs : p.refs with
            | none => simp [hrefs]
            | some rs0 => simpa [hrefs] using (refsInv_names p rs0 (hinv p hpmem) hrefs).2
          simp only [RefsInv]
          refine ⟨by simp, ?_⟩
          rw [List.map_append]
          refine List.Nodup.append hnd (by simp) ?_
          intro x hx hx'
          simp at hx'
          obtain ⟨r, hr, hrn⟩ := List.mem_map.mp hx
          subst hx'
          exact hfresh r hr hrn
        · exact hinv q hq'

theorem refRemove_preserves_inv (plugins : List PluginEntry) (pid rn : String) (now : String)
    (hinv : ∀ p ∈ plugins, RefsInv p) :
    ∀ q ∈ (ref_remove plugins pid rn now).2, RefsInv q := by
  intro q hq
  cases hfp : find_plugin plugins pid with
  | none =>
      simp only [ref_remove, hfp] at hq
      exact hinv q hq
  | some p =>
      have hpmem : p ∈ plugins := List.mem_of_find?_eq_some hfp
      cases hrefs : p.refs with
      | none =>
          simp only [ref_remove, hfp, hrefs] at hq
          exact hinv q hq
      | some rs =>
          by_cases hlen : (rs.filter (fun r => r.name ≠ rn)).length = rs.length
          · simp only [ref_remove, hfp, hrefs, hlen, if_pos] at hq
            exact hinv q hq
          · simp only [ref_remove, hfp, hrefs, hlen, if_neg, not_false_eq_true] at hq
            rcases mem_replaceFirst plugins pid _ q hq with hq' | hq'
            · subst hq'
              have hnd : (rs.map Ref.name).Nodup :=
                (refsInv_names p rs (hinv p hpmem) hrefs).2
              by_cases hempty : rs.filter (fun r => r.name ≠ rn) = []
              · simp only [RefsInv]
                rw [if_pos hempty]
                trivial
              · simp only [RefsInv, hempty, if_neg, not_false_eq_true]
                refine ⟨hempty, ?_⟩
                exact hnd.sublist (List.Sublist.map _ (List.filter_sublist rs))
            · exact hinv q hq'

theorem refEdit_preserves_inv (plugins : List PluginEntry) (pid rn : String)
    (nn d mn mx : Option String) (now : String) (hinv : ∀ p ∈ plugins, RefsInv p) :
    ∀ q ∈ (ref_edit plugins pid rn nn d mn mx now).2, RefsInv q := by
  intro q hq
  cases hfp : find_plugin plugins pid with
  | none =>
      simp only [ref_edit, hfp] at hq
      exact hinv q hq
  | some p =>
      have hpmem : p ∈ plugins := List.mem_of_find?_eq_some hfp
      cases hfr : (p.refs.getD []).find? (fun r => r.name = rn) with
      | none =>
          simp only [ref_edit, hfp, hfr] at hq
          exact hinv q hq
      | some r =>
          have hrmem : r ∈ p.refs.getD [] := List.mem_of_find?_eq_some hfr
          have hrname : r.name = rn := by
            have := List.find?_some hfr
            simpa using this
          have hnd : ((p.refs.getD []).map Ref.name).Nodup := by
            cases hrefs : p.refs with
            | none => simp [hrefs]
            | some rs0 => simpa [hrefs] using (refsInv_names p rs0 (hinv p hpmem) hrefs).2
          by_cases hcol : truthyOpt nn ∧ nn ≠ some rn ∧
              (p.refs.getD []).any (fun r'' => some r''.name = nn)
          · simp only [ref_edit, hfp, hfr, if_pos hcol] at hq
            exact hinv q hq
          · simp only [ref_edit, hfp, hfr, if_neg hcol] at hq
            rcases mem_replaceFirst plugins pid _ q hq with hq' | hq'
            · subst hq'
              simp only [RefsInv]
              refine ⟨?_, ?_⟩
              · intro hnil
                have hlen := replaceRef_length rn (editedRef r rn nn d mn mx) (p.refs.getD [])
                rw [hnil] at hlen
                have hzero : p.refs.getD [] = [] := List.length_eq_zero.mp hlen.symm
                rw [hzero] at hrmem
                simp at hrmem
              · by_cases hren : truthyOpt nn ∧ nn ≠ some rn
                · obtain ⟨nns, hnns, hnne⟩ := (truthyOpt_eq_true_iff nn).mp hren.1
                  have hcol' : ((p.refs.getD []).any (fun r'' => some r''.name = nn)) = false := by
                    rcases Bool.eq_false_or_eq_true
                        ((p.refs.getD []).any (fun r'' => some r''.name = nn)) with hcase | hcase
                    · exact absurd ⟨hren.1, hren.2, hcase⟩ hcol
                    · exact hcase
                  have hname' : (editedRef r rn nn d mn mx).name = nns := by
                    simp only [editedRef]
                    rw [if_pos hren, hnns]
                    rfl
                  have hnotin : (editedRef r rn nn d mn mx).name ∉
                      (p.refs.getD []).map Ref.name := by
                    rw [hname']
                    intro hmem
                    obtain ⟨r2, hr2, hr2n⟩ := List.mem_map.mp hmem
                    have htrue : ((p.refs.getD []).any (fun r'' => some r''.name = nn)) = true :=
                      List.any_eq_true.mpr ⟨r2, hr2, by simp [hr2n, hnns]⟩
                    rw [hcol'] at htrue
                    exact Bool.false_ne_true htrue
                  exact replaceRef_nodup rn _ _ hnotin hnd
                · have hname' : (editedRef r rn nn d mn mx).name = rn := by
                    simp only [editedRef, if_neg hren]
                    exact hrname
                  rw [replaceRef_map_name_eq rn _ hname' (p.refs.getD [])]
                  exact hnd
            · exact hinv q hq'

theorem addPlugin_refs_key (chk : String → Bool) (fetch : String → String → Manifest)
    (plugins : List PluginEntry) (gu tl : String) (cats : Option (List String))
    (refsArg : Option String) (now : String) (p' : PluginEntry)
    (hok : (add_plugin chk fetch plugins gu tl cats refsArg now).1 = .ok p') :
    (p'.refs = none ↔ resolveRefsArg refsArg = [defaultMainRef])
    ∧ ∀ rs, p'.refs = some rs → rs ≠ [] := by
  unfold add_plugin at hok
  cases hb : REGISTRY_TRUST_LEVELS.contains tl with
  | false =>
      rw [hb] at hok
      simp at hok
  | true =>
      rw [hb] at hok
      rw [if_neg (show ¬ ¬ (true = true) by simp)] at hok
      cases hval : validate_manifest chk
          (fetch gu ((resolveRefsArg refsArg).headD defaultMainRef).name) with
      | error e =>
          simp only [hval] at hok
          exact absurd hok (by simp)
      | ok u =>
          cases hder : derive_plugin_id gu with
          | error e =>
              simp only [hval, hder] at hok
              exact absurd hok (by simp)
          | ok pid =>
              cases hdup : findDup gu
                  ((fetch gu ((resolveRefsArg refsArg).headD defaultMainRef).name).uuid.getD "")
                  plugins with
              | some e =>
                  simp only [hval, hder, hdup] at hok
                  exact absurd hok (by simp)
              | none =>
                  cases hfnd : find_plugin plugins pid with
                  | some x =>
                      simp only [hval, hder, hdup, hfnd] at hok
                      exact absurd hok (by simp)
                  | none =>
                      simp only [hval, hder, hdup, hfnd] at hok
                      have hok' := (Except.ok.injEq _ _).mp hok
                      subst hok'
                      rcases hrl : resolveRefsArg refsArg with _ | ⟨r0, rtl⟩
                      · exact absurd hrl (resolveRefsArg_ne_nil refsArg)
                      · rcases rtl with _ | ⟨r1, rest⟩
                        · have hmem0 : r0 ∈ resolveRefsArg refsArg := by rw [hrl]; simp
                          have hshape := resolveRefsArg_shape refsArg r0 hmem0
                          by_cases hc : r0.name = "main" ∧ r0.min_api_version = none
                          · have hr0 : r0 = defaultMainRef := by
                              rcases r0 with ⟨nm, ds, mnv, mxv⟩
                              simp only [defaultMainRef, Ref.mk.injEq]
                              simp only at hc hshape
                              exact ⟨hc.1, hshape.1, hc.2, hshape.2 hc.2⟩
                            constructor
                            · simp only [buildEntry]
                              rw [hr0]
                              simp [defaultMainRef]
                            · intro rs hrs
                              simp only [buildEntry] at hrs
                              simp [hc] at hrs
                          · constructor
                            · simp only [buildEntry]
                              refine iff_of_false (by simp [hc]) ?_
                              intro h
                              have hr0d : r0 = defaultMainRef := by simpa using h
                              apply hc
                              rw [hr0d]
                              exact ⟨rfl, rfl⟩
                            · intro rs hrs
                              simp only [buildEntry] at hrs
                              simp [hc] at hrs
                              rw [← hrs]
                              simp
                        · constructor
                          · simp only [buildEntry]
                            exact iff_of_false (by simp) (by simp)
                          · intro rs hrs
                            simp only [buildEntry] at hrs
                            simp at hrs
                            rw [← hrs]
                            simp

/-- C9 (amended): the CLI ref operations (add, edit, remove) preserve the
refs invariant — a present `refs` key holds a non-empty list with
pairwise-distinct names — for every entry of the registry, and remove
deletes the key instead of storing an empty list (the invariant's
non-emptiness); `add_plugin` omits the `refs` key exactly when the parsed
list is the single default `"main"` ref with no bounds, and any stored
refs list is non-empty.  (Unlike the original claim, `add_plugin` itself
enforces neither distinctness nor non-emptiness of the parsed ref names,
and the ref operations do not reject an empty name.) -/
theorem C9_refs_invariant_amended :
    (∀ (plugins : List PluginEntry) (pid rn : String) (d mn mx : Option String) (now : String),
       (∀ p ∈ plugins, RefsInv p) →
       ∀ q ∈ (ref_add plugins pid rn d mn mx now).2, RefsInv q)
    ∧ (∀ (plugins : List PluginEntry) (pid rn : String) (nn d mn mx : Option String)
         (now : String), (∀ p ∈ plugins, RefsInv p) →
       ∀ q ∈ (ref_edit plugins pid rn nn d mn mx now).2, RefsInv q)
    ∧ (∀ (plugins : List PluginEntry) (pid rn now : String), (∀ p ∈ plugins, RefsInv p) →
       ∀ q ∈ (ref_remove plugins pid rn now).2, RefsInv q)
    ∧ (∀ (chk : String → Bool) (fetch : String → String → Manifest)
         (plugins : List PluginEntry) (gu tl : String) (cats : Option (List String))
         (refsArg : Option String) (now : String) (p' : PluginEntry),
        (add_plugin chk fetch plugins gu tl cats refsArg now).1 = .ok p' →
        ((p'.refs = none ↔ resolveRefsArg refsArg = [defaultMainRef])
         ∧ ∀ rs, p'.refs = some rs → rs ≠ [])) :=
  ⟨refAdd_preserves_inv, refEdit_preserves_inv, refRemove_preserves_inv, addPlugin_refs_key⟩

/-- Witness for C9 (amended): adding a fresh ref to a plugin without refs
yields an entry satisfying the invariant. -/
theorem C9_witness :
    RefsInv entryDev ∧ (ref_add [entryA1] "a" "develop" none none none "T3").2 = [entryDev] := by
  refine ⟨?_, rfl⟩
  refine C9_refs_invariant_amended.1 [entryA1] "a" "develop" none none none "T3" ?_ entryDev ?_
  · intro p hp
    have hp' : p = entryA1 := by simpa using hp
    subst hp'
    exact trivial
  · rw [show (ref_add [entryA1] "a" "develop" none none none "T3").2 = [entryDev] from rfl]
    simp

/-- C9 counterexample: `add_plugin` accepts the refs argument
`"main,main"` and stores the parsed list as-is, producing an entry whose
`refs` key holds two refs with the same name — the pairwise-distinct-names
invariant claimed for entries produced by plugin add fails. -/
theorem C9_counterexample :
    (add_plugin chkNone (fun _ _ => mValidA) [] "https://github.com/user/test-plugin" "community"
        none (some "main,main") "T").1 = .ok entryC9
    ∧ entryC9.refs = some [defaultMainRef, defaultMainRef]
    ∧ ¬ RefsInv entryC9 := by
  refine ⟨rfl, rfl, ?_⟩
  intro h
  have h2 := (refsInv_names entryC9 [defaultMainRef, defaultMainRef] h rfl).2
  simp [defaultMainRef] at h2
